import Mathlib

/-!
Verification of the rivers streaming library against its specification.

The development shallowly embeds the parts of the code the claims refer to:
the hierarchical execution context (close protocol), the emitter, the
conditional dispatcher, the positional pairing combiners (Zip and ZipBy),
the batch transformer, the generic transform worker loop, and the
unordered interleave (FIFO) combiner.
-/

/-! ## Execution context tree

Modelled from the spec: the context implementation itself is not under
src (only its tests are, in the context test file); those in-src tests pin
the observable protocol and override the spec prose where the two differ.
The spec describes a node with a close-requested flag, a derived closed
state, and a set of owned child contexts; close marks close-requested on
the addressed context, transitions it to closed when all its children are
closed, and the closure of a child makes every ancestor re-evaluate
bottom-up. The test in which all children close expects the parent to
become closed even though close was never requested on the parent, so the
re-evaluation of a context that owns children consults only the closed
state of its children, not its own close-requested flag; the flag decides
closure only for a context without children. -/

/-- A context tree node: close-requested flag, observable closed flag,
owned children. -/
inductive CtxTree where
  | node (req : Bool) (closedF : Bool) (children : List CtxTree)
deriving Repr

def CtxTree.req : CtxTree → Bool
  | .node r _ _ => r

def CtxTree.closedF : CtxTree → Bool
  | .node _ c _ => c

def CtxTree.children : CtxTree → List CtxTree
  | .node _ _ cs => cs

/-- All children observably closed (vacuously true with no children). -/
def allClosed (cs : List CtxTree) : Bool :=
  cs.all fun c => c.closedF

/-- Update the element at one index of a list in place. -/
def updateIdx {α : Type} : List α → Nat → (α → α) → List α
  | [], _, _ => []
  | x :: xs, 0, f => f x :: xs
  | x :: xs, Nat.succ i, f => x :: updateIdx xs i f

/-- Close requested at the context addressed by the index path: marks
close-requested there and transitions it to closed when all its children
are closed (immediately so for a context without children); every ancestor
along the path then re-evaluates bottom-up and becomes closed as soon as
all of its children are closed, whether or not close was requested on it —
the behavior pinned by the in-src test in which the parent closes without
a close request. A path that does not address an owned child leaves the
tree unchanged (a close request always targets a held context). -/
def closeAt : List Nat → CtxTree → CtxTree
  | [], CtxTree.node _ _ cs => CtxTree.node true (allClosed cs) cs
  | i :: p, CtxTree.node r c cs =>
      if i < cs.length then
        CtxTree.node r (allClosed (updateIdx cs i (closeAt p)))
          (updateIdx cs i (closeAt p))
      else CtxTree.node r c cs

/-- A sequence of close requests, applied in order. -/
def closeSeq (t : CtxTree) (ps : List (List Nat)) : CtxTree :=
  ps.foldl (fun t p => closeAt p t) t

mutual
/-- The observable-closed invariant: at every node, the closed flag holds
exactly when every child is closed and, for a node without children, close
was requested on it (a node that owns children needs no request). -/
def wfCtx : CtxTree → Bool
  | CtxTree.node r c cs =>
      (c == (allClosed cs && (r || !cs.isEmpty))) && wfCtxList cs

def wfCtxList : List CtxTree → Bool
  | [] => true
  | c :: cs => wfCtx c && wfCtxList cs
end

/-- A freshly created context: nothing requested, nothing closed. -/
def openNode (cs : List CtxTree) : CtxTree :=
  CtxTree.node false false cs

theorem wfCtx_node (r c : Bool) (cs : List CtxTree) :
    wfCtx (CtxTree.node r c cs)
      = ((c == (allClosed cs && (r || !cs.isEmpty))) && wfCtxList cs) := by
  rw [wfCtx]

theorem updateIdx_length {α : Type} (f : α → α) :
    ∀ (l : List α) (i : Nat), (updateIdx l i f).length = l.length := by
  intro l
  induction l with
  | nil => intro i; rfl
  | cons x xs ih =>
      intro i
      cases i with
      | zero => rfl
      | succ i =>
          show (x :: updateIdx xs i f).length = (x :: xs).length
          simp [ih i]

theorem isEmpty_eq_false_of_length {α : Type} (l : List α) (h : l.length ≠ 0) :
    l.isEmpty = false := by
  cases l with
  | nil => exact absurd rfl h
  | cons x xs => rfl

theorem wfCtxList_cons (c : CtxTree) (cs : List CtxTree) :
    wfCtxList (c :: cs) = (wfCtx c && wfCtxList cs) := by
  rw [wfCtxList]

theorem updateIdx_wfCtx (p : List Nat)
    (H : ∀ t, wfCtx t = true → wfCtx (closeAt p t) = true) :
    ∀ (cs : List CtxTree) (i : Nat),
      wfCtxList cs = true → wfCtxList (updateIdx cs i (closeAt p)) = true := by
  intro cs
  induction cs with
  | nil => intro i h; exact h
  | cons c cs ih =>
      intro i h
      rw [wfCtxList_cons, Bool.and_eq_true] at h
      obtain ⟨hc, hcs⟩ := h
      cases i with
      | zero =>
          show wfCtxList (closeAt p c :: cs) = true
          rw [wfCtxList_cons, Bool.and_eq_true]
          exact ⟨H c hc, hcs⟩
      | succ i =>
          show wfCtxList (c :: updateIdx cs i (closeAt p)) = true
          rw [wfCtxList_cons, Bool.and_eq_true]
          exact ⟨hc, ih i hcs⟩

theorem closeAt_wfCtx (p : List Nat) :
    ∀ t, wfCtx t = true → wfCtx (closeAt p t) = true := by
  induction p with
  | nil =>
      intro t h
      cases t with
      | node r c cs =>
          rw [wfCtx_node, Bool.and_eq_true] at h
          show wfCtx (CtxTree.node true (allClosed cs) cs) = true
          rw [wfCtx_node, Bool.and_eq_true]
          exact ⟨by simp, h.2⟩
  | cons i p ih =>
      intro t h
      cases t with
      | node r c cs =>
          rw [wfCtx_node, Bool.and_eq_true] at h
          have hstep : closeAt (i :: p) (CtxTree.node r c cs)
              = if i < cs.length then
                  CtxTree.node r (allClosed (updateIdx cs i (closeAt p)))
                    (updateIdx cs i (closeAt p))
                else CtxTree.node r c cs := rfl
          rw [hstep]
          by_cases hi : i < cs.length
          · rw [if_pos hi, wfCtx_node, Bool.and_eq_true]
            refine ⟨?_, updateIdx_wfCtx p ih cs i h.2⟩
            have hne : (updateIdx cs i (closeAt p)).isEmpty = false := by
              apply isEmpty_eq_false_of_length
              rw [updateIdx_length]
              omega
            rw [hne]
            simp
          · rw [if_neg hi, wfCtx_node, Bool.and_eq_true]
            exact h

theorem closeSeq_wfCtx (ps : List (List Nat)) :
    ∀ t, wfCtx t = true → wfCtx (closeSeq t ps) = true := by
  induction ps with
  | nil => intro t h; exact h
  | cons p ps ih =>
      intro t h
      exact ih (closeAt p t) (closeAt_wfCtx p t h)

/-- The context tree of the all-children-closed test: a parent owning
child1 and child2, child2 owning a grandchild, all freshly created. -/
def testTree : CtxTree :=
  openNode [openNode [], openNode [openNode []]]

/-- The context tree of the children-still-opened test: a parent owning
two fresh children. -/
def testTree2 : CtxTree :=
  openNode [openNode [], openNode []]

/-- Counterexample to claim C1 as stated: replaying the exact close
sequence of the all-children-closed test — close child1, close child2,
close the grandchild, and never request close on the parent — every child
of the parent is closed, close was never requested on the parent, and yet
the observable closed state of the parent is true (as the in-src test
expects). The claimed closed-only-if-close-requested direction is false. -/
theorem C1_context_closed_counterexample :
    ((closeSeq testTree [[0], [1], [1, 0]]).children.map CtxTree.closedF)
        = [true, true]
      ∧ (closeSeq testTree [[0], [1], [1, 0]]).req = false
      ∧ (closeSeq testTree [[0], [1], [1, 0]]).closedF = true := by
  refine ⟨?_, ?_, ?_⟩ <;> decide

/-- claim C1 amended: for every context in the tree, after any sequence of
close requests the observable closed state is true iff every child it owns
is closed and, when it owns no children, close has been requested on it —
a context that owns children closes as soon as its last child closes,
whether or not close was requested on it. In particular, closing one child
of a parent does not close the parent while another child (or its
grandchild) remains open, requesting close on a parent with open children
closes neither the parent nor the children, and once the last descendant
closes, closure propagates bottom-up to the parent. -/
theorem C1_context_closed_amended (t : CtxTree) (ps : List (List Nat))
    (h : wfCtx t = true) :
    wfCtx (closeSeq t ps) = true
      ∧ (closeSeq testTree2 [[]]).closedF = false
      ∧ ((closeSeq testTree2 [[]]).children.map CtxTree.closedF)
          = [false, false]
      ∧ (closeSeq testTree [[0]]).closedF = false
      ∧ ((closeSeq testTree [[0]]).children.map CtxTree.closedF)
          = [true, false]
      ∧ (closeSeq testTree [[0], [1]]).closedF = false
      ∧ ((closeSeq testTree [[0], [1]]).children.map CtxTree.closedF)
          = [true, false]
      ∧ (closeSeq testTree [[0], [1], [1, 0]]).closedF = true
      ∧ ((closeSeq testTree [[0], [1], [1, 0]]).children.map CtxTree.closedF)
          = [true, true] :=
  ⟨closeSeq_wfCtx ps t h, by decide, by decide, by decide, by decide,
   by decide, by decide, by decide, by decide⟩

/-- Witness for the amended C1 at the test configuration: the fresh
three-level tree satisfies the invariant and keeps satisfying it after the
close sequence of the all-children-closed test. -/
theorem C1_context_closed_amended_witness :
    wfCtx (closeSeq testTree [[0], [1], [1, 0]]) = true :=
  (C1_context_closed_amended testTree [[0], [1], [1, 0]]
    (by simp [testTree, openNode, wfCtx, wfCtxList, allClosed, CtxTree.closedF])).1

/-! ## Emitter

Embedded from the source (the stream emitter): Emit selects on the Failure
signal of the bound context without blocking; when the signal is ready it
panics with the Done sentinel (no write happens), otherwise it performs the
blocking write of the item to the writable stream. -/

/-- The two signals a context exposes to workers. Closed and Failure are
independent signals; Emit consults only Failure. -/
structure EmitCtx where
  closedSig : Bool
  failureSig : Bool
deriving Repr, DecidableEq

/-- The Done sentinel value thrown by Emit on a failed context. -/
inductive Signal where
  | done
deriving Repr, DecidableEq

/-- One Emit call: a non-blocking check of the Failure signal of the bound
context; when failed, unwind with the Done panic and perform no write;
otherwise append the item to the stream buffer (the blocking write). -/
def Emit {T : Type} (ctx : EmitCtx) (buffer : List T) (data : T) :
    Except Signal (List T) :=
  if ctx.failureSig then Except.error Signal.done
  else Except.ok (buffer ++ [data])

/-- Worker termination as seen from outside the worker. -/
inductive WorkerExit (A : Type) where
  | finished (a : A)
  | recovered
deriving Repr, DecidableEq

/-- Modelled from the spec: the deferred context Recover guard of a worker
is not under src; the spec says the unwinding caused by Emit on a failed
context is an abnormal-but-recoverable termination caught by the guard of
the worker, with no process crash. The guard turns the Done panic into a
quiet worker exit and lets normal results through. -/
def recoverGuard {A : Type} : Except Signal A → WorkerExit A
  | Except.error Signal.done => WorkerExit.recovered
  | Except.ok a => WorkerExit.finished a

/-- claim C3: for every emitter and every item, Emit first performs a
non-blocking check of the Failure signal of the bound context: if the
context has already failed, no write occurs and the emission unwinds the
worker, which the guard of the worker catches (no crash); if the context
has not failed, Emit performs the blocking write of the item to the
stream. -/
theorem C3_emit_gates_on_failure {T : Type} (ctx : EmitCtx)
    (buffer : List T) (data : T) :
    (ctx.failureSig = true →
        Emit ctx buffer data = Except.error Signal.done
          ∧ recoverGuard (Emit ctx buffer data) = WorkerExit.recovered)
      ∧ (ctx.failureSig = false →
        Emit ctx buffer data = Except.ok (buffer ++ [data])) := by
  constructor
  · intro h
    constructor
    · rw [Emit, h]; rfl
    · rw [Emit, h]; rfl
  · intro h
    rw [Emit, h]; rfl

/-- Witness for C3 on a failed context and on a healthy context. -/
theorem C3_emit_gates_on_failure_witness :
    (Emit (EmitCtx.mk false true) [1] (2 : Int) = Except.error Signal.done
        ∧ recoverGuard (Emit (EmitCtx.mk false true) [1] (2 : Int))
            = WorkerExit.recovered)
      ∧ Emit (EmitCtx.mk false false) [1] (2 : Int) = Except.ok [1, 2] :=
  ⟨(C3_emit_gates_on_failure (EmitCtx.mk false true) [1] 2).1 rfl,
   (C3_emit_gates_on_failure (EmitCtx.mk false false) [1] 2).2 rfl⟩

/-- claim C9: Emit gates emission on the Failure signal only, never on the
Closed signal: on a context that is closed (explicit cancellation, no
failure cause) but has not failed, Emit does not abort and still performs
the blocking write of the item to the stream. -/
theorem C9_emit_ignores_closed {T : Type} (ctx : EmitCtx)
    (buffer : List T) (data : T)
    (hclosed : ctx.closedSig = true) (hfail : ctx.failureSig = false) :
    Emit ctx buffer data = Except.ok (buffer ++ [data]) := by
  rw [Emit, hfail]
  rfl

/-- Witness for C9: a closed, non-failed context still writes. -/
theorem C9_emit_ignores_closed_witness :
    Emit (EmitCtx.mk true false) [1] (2 : Int) = Except.ok [1, 2] :=
  C9_emit_ignores_closed (EmitCtx.mk true false) [1] 2 rfl rfl

/-! ## Conditional dispatcher

Embedded from the source (the if dispatcher): the worker loop reads the
input in order; per item it selects on the Failure signal (returning when
failed) and otherwise tests the predicate: a match bumps the dispatched
count and launches one independent asynchronous send per listed writable
(each send acknowledges on the done channel); a non-match is written to the
remainder stream. The deferred actions are pushed in the order Recover,
close the remainder writable, closeWritables; Go runs deferred actions in
reverse push order, so closeWritables runs first. closeWritables waits for
dispatched-count times output-count acknowledgements, returning early when
the Failure signal fires, and its own deferred block then closes every
listed writable exactly once. -/

/-- Observable termination events of a dispatch run, in execution order. -/
inductive DEvent where
  | barrier (acks : Nat)
  | closeOut (i : Nat)
  | closeRemainder
  | recovered
deriving Repr, DecidableEq

/-- The scheduling environment of one run: at which loop iteration (if any)
the Failure signal is observed, whether it fires while the barrier waits,
and how many done acknowledgements arrive before the barrier would block. -/
structure DispatchEnv where
  failAtLoop : Option Nat
  failInBarrier : Bool
  acksAvail : Nat
deriving Repr, DecidableEq

/-- A run with no failure: the loop drains the input and the barrier
collects every expected acknowledgement. -/
def cleanEnv : DispatchEnv :=
  DispatchEnv.mk none false 0

/-- Deferred actions of the dispatch worker, listed in push order. -/
inductive DeferAction where
  | recoverA
  | closeRemainderA
  | closeWritablesA
deriving Repr, DecidableEq

/-- The defer stack of the dispatch worker as pushed by the source:
Recover first, then close of the remainder writable, then closeWritables. -/
def deferStack : List DeferAction :=
  [DeferAction.recoverA, DeferAction.closeRemainderA, DeferAction.closeWritablesA]

/-- The events one deferred action produces. closeWritables first runs its
acknowledgement barrier, then (by its own deferred block) closes each of
the listed writables once. -/
def runDefer (nOut : Nat) (acks : Nat) : DeferAction → List DEvent
  | DeferAction.closeWritablesA =>
      DEvent.barrier acks :: (List.range nOut).map DEvent.closeOut
  | DeferAction.closeRemainderA => [DEvent.closeRemainder]
  | DeferAction.recoverA => [DEvent.recovered]

/-- Go executes deferred actions in reverse push order. -/
def runDefers (nOut : Nat) (acks : Nat) (stack : List DeferAction) : List DEvent :=
  stack.reverse.flatMap (runDefer nOut acks)

/-- The items the main loop processes: the whole input, or the items before
the iteration at which the Failure signal is observed. -/
def processedItems {T : Type} (env : DispatchEnv) (input : List T) : List T :=
  match env.failAtLoop with
  | none => input
  | some k => input.take k

/-- Acknowledgements the barrier consumes before finishing: all expected
ones, unless the Failure signal lets it return early with only those
already available. -/
def barrierAcks (expected : Nat) (failed : Bool) (acksAvail : Nat) : Nat :=
  if failed then min acksAvail expected else expected

/-- Result of one dispatch run: the remainder stream content in order, the
matching items (each launched as one independent send to every listed
output, so each output receives them as an unordered multiset), the
expected and consumed acknowledgement counts, and the termination events. -/
structure DispatchRun (T : Type) where
  remainder : List T
  fanout : List T
  expected : Nat
  acks : Nat
  events : List DEvent
deriving Repr

/-- One run of the dispatch worker under a scheduling environment. -/
def dispatch {T : Type} (p : T → Bool) (nOut : Nat) (input : List T)
    (env : DispatchEnv) : DispatchRun T :=
  let processed := processedItems env input
  let fan := processed.filter p
  let expected := fan.length * nOut
  let failed := env.failAtLoop.isSome || env.failInBarrier
  let acks := barrierAcks expected failed env.acksAvail
  DispatchRun.mk (processed.filter fun d => !(p d)) fan expected acks
    (runDefers nOut acks deferStack)

/-- The even predicate of the dispatch test. -/
def evensInt : Int → Bool :=
  fun n => n % 2 == 0

/-- claim C4: dispatch forwards each item for which the predicate is false
to the single remainder output in original input order, and launches for
each item for which the predicate is true one independent non-blocking send
per listed output, so each listed output receives exactly the matching
items (as an unordered multiset); concretely, dispatching [1,2,3,4,5] with
the even predicate and one extra output delivers exactly the multiset
containing 2 and 4 to the extra output and exactly [1,3,5] in order to the
remainder. -/
theorem C4_dispatch_partition {T : Type} (p : T → Bool) (nOut : Nat)
    (input : List T) :
    (dispatch p nOut input cleanEnv).remainder = input.filter (fun d => !(p d))
      ∧ (dispatch p nOut input cleanEnv).fanout = input.filter p
      ∧ ((dispatch evensInt 1 [1, 2, 3, 4, 5] cleanEnv).fanout : Multiset Int)
          = ({2, 4} : Multiset Int)
      ∧ (dispatch evensInt 1 [1, 2, 3, 4, 5] cleanEnv).remainder = [1, 3, 5] :=
  ⟨rfl, rfl, by decide, by decide⟩

theorem closeOut_injective : Function.Injective DEvent.closeOut := by
  intro a b h
  simpa using h

/-- The termination events of every dispatch run, in order: the barrier of
closeWritables finishes first, then each listed output is closed, then the
remainder writable is closed, then the Recover guard runs. -/
theorem dispatch_events {T : Type} (p : T → Bool) (nOut : Nat)
    (input : List T) (env : DispatchEnv) :
    (dispatch p nOut input env).events
      = DEvent.barrier (dispatch p nOut input env).acks
          :: ((List.range nOut).map DEvent.closeOut
              ++ [DEvent.closeRemainder, DEvent.recovered]) := by
  rfl

/-- claim C5: in every dispatch run, every fanned-out output is closed only
after the completion barrier finished, the barrier consumes exactly the
expected matches times output-count acknowledgements unless the context
signalled failure first, and the close of the remainder output happens
after the barrier (and after every fanned-out close), so it cannot race
ahead of in-flight fan-out deliveries. -/
theorem C5_dispatch_barrier_order {T : Type} (p : T → Bool) (nOut : Nat)
    (input : List T) (env : DispatchEnv) :
    (dispatch p nOut input env).events.head?
        = some (DEvent.barrier (dispatch p nOut input env).acks)
      ∧ ((dispatch p nOut input env).acks = (dispatch p nOut input env).expected
          ∨ (env.failAtLoop.isSome || env.failInBarrier) = true)
      ∧ (∀ i, i < nOut →
          (dispatch p nOut input env).events[i + 1]?
            = some (DEvent.closeOut i))
      ∧ (dispatch p nOut input env).events[nOut + 1]?
          = some DEvent.closeRemainder := by
  refine ⟨?_, ?_, ?_, ?_⟩
  · rw [dispatch_events]
    rfl
  · by_cases h : (env.failAtLoop.isSome || env.failInBarrier) = true
    · exact Or.inr h
    · refine Or.inl ?_
      show barrierAcks _ (env.failAtLoop.isSome || env.failInBarrier) _ = _
      rw [barrierAcks, if_neg (by simpa using h)]
      rfl
  · intro i hi
    rw [dispatch_events]
    rw [List.getElem?_cons_succ]
    rw [List.getElem?_append]
    rw [if_pos (by simpa using hi)]
    rw [List.getElem?_map]
    rw [List.getElem?_range hi]
    rfl
  · rw [dispatch_events]
    rw [List.getElem?_cons_succ]
    rw [List.getElem?_append_right (by simp)]
    simp

/-- Witness for C5 on the dispatch test configuration: one listed output,
the even predicate, input [1,2,3,4,5], no failure. -/
theorem C5_dispatch_barrier_order_witness :
    (dispatch evensInt 1 [1, 2, 3, 4, 5] cleanEnv).events[0 + 1]?
        = some (DEvent.closeOut 0)
      ∧ (dispatch evensInt 1 [1, 2, 3, 4, 5] cleanEnv).events[1 + 1]?
          = some DEvent.closeRemainder :=
  ⟨(C5_dispatch_barrier_order evensInt 1 [1, 2, 3, 4, 5] cleanEnv).2.2.1 0
      (by decide),
   (C5_dispatch_barrier_order evensInt 1 [1, 2, 3, 4, 5] cleanEnv).2.2.2⟩

/-- claim C10: on every termination path of dispatch (input exhausted,
failure during the main loop, failure while the barrier waits) every listed
fan-out output is closed exactly once, and with zero matching items the
outputs are closed without waiting for any acknowledgement. -/
theorem C10_dispatch_closes_once {T : Type} (p : T → Bool) (nOut : Nat)
    (input : List T) (env : DispatchEnv) :
    (∀ i, i < nOut →
        (dispatch p nOut input env).events.count (DEvent.closeOut i) = 1)
      ∧ ((dispatch p nOut input env).fanout = [] →
        (dispatch p nOut input env).acks = 0) := by
  constructor
  · intro i hi
    rw [dispatch_events]
    rw [List.count_cons_of_ne (by simp)]
    rw [List.count_append]
    have h1 : ((List.range nOut).map DEvent.closeOut).count (DEvent.closeOut i)
        = (List.range nOut).count i :=
      List.count_map_of_injective _ _ closeOut_injective _
    rw [h1]
    rw [List.count_eq_one_of_mem (List.nodup_range nOut) (List.mem_range.mpr hi)]
    simp
  · intro h
    have hfan : (processedItems env input).filter p = [] := h
    show barrierAcks (((processedItems env input).filter p).length * nOut) _ _ = 0
    rw [hfan]
    rw [barrierAcks]
    simp

/-! ## Positional pairing combiners (Zip and ZipBy)

Modelled from the spec and the repository tests: the combiner
implementation is not under src; the tests in src pin the end-of-data
behavior. The rivers API test zips [1,2,3,4] with [4,4,1] by pairwise sum,
filters evens and expects [6,4,4]; the Zip test combines [1,2,3,4] with a
three-item stream and expects the trailing unpartnered item in the output.
Both require rounds to keep running while any input still has items: a
round reads one item from every input that still has one and the stage
ends only when every input has ended. Recursion is bounded by a fuel that
always exceeds the number of rounds (each round consumes at least one
buffered item). -/

/-- Total number of buffered items across all inputs. -/
def totalLen {α : Type} (streams : List (List α)) : Nat :=
  (streams.map List.length).sum

/-- Fuelled rounds of ZipBy: reduce the items available in the round
left-to-right with the binary function and emit the result; stop once every
input has ended. -/
def zipByF {α : Type} (f : α → α → α) : Nat → List (List α) → List α
  | 0, _ => []
  | Nat.succ fuel, streams =>
      if streams.all List.isEmpty then []
      else
        match streams.filterMap List.head? with
        | [] => []
        | h :: hs => hs.foldl f h :: zipByF f fuel (streams.map List.tail)

/-- The ZipBy combiner. -/
def zipBy {α : Type} (f : α → α → α) (streams : List (List α)) : List α :=
  zipByF f (totalLen streams + 1) streams

/-- Fuelled rounds of Zip: emit the items available in the round one by
one, in input order; stop once every input has ended. -/
def zipF {α : Type} : Nat → List (List α) → List α
  | 0, _ => []
  | Nat.succ fuel, streams =>
      if streams.all List.isEmpty then []
      else streams.filterMap List.head? ++ zipF fuel (streams.map List.tail)

/-- The Zip combiner. -/
def zipStreams {α : Type} (streams : List (List α)) : List α :=
  zipF (totalLen streams + 1) streams

/-- Counterexample to claim C2 as stated: ZipBy with pairwise sum over
[1,2,3,4] and [4,4,1] does not emit [5,6,4]; it emits [5,6,4,4]. The
unpartnered fourth item of the first input is emitted, not discarded —
consistently, the repository test filters evens out of this zip and
expects [6,4,4], which [5,6,4] cannot produce. -/
theorem C2_zipby_counterexample :
    zipBy (fun a b => a + b) [[1, 2, 3, 4], [(4 : Int), 4, 1]] = [5, 6, 4, 4]
      ∧ zipBy (fun a b => a + b) [[1, 2, 3, 4], [(4 : Int), 4, 1]] ≠ [5, 6, 4]
      ∧ (zipBy (fun a b => a + b) [[1, 2, 3, 4], [(4 : Int), 4, 1]]).filter
          evensInt = [6, 4, 4] :=
  ⟨by decide, by decide, by decide⟩

theorem zipByF_cons_nil {α : Type} (f : α → α → α) (fuel : Nat) (x : α)
    (l : List α) :
    zipByF f (fuel + 1) [x :: l, []] = x :: zipByF f fuel [l, []] := by
  rfl

theorem zipF_cons_nil {α : Type} (fuel : Nat) (x : α) (l : List α) :
    zipF (fuel + 1) [x :: l, ([] : List α)] = x :: zipF fuel [l, []] := by
  rfl

/-- claim C2 amended: the positional pairing stage ends only when every
input has ended; a round in which some inputs have already ended combines
just the items still available, so no buffered item is discarded. With one
input ended and the other still holding an item, both Zip and ZipBy still
emit; concretely, ZipBy with pairwise sum over [1,2,3,4] and [4,4,1] emits
[5,6,4,4] (whose even items are the [6,4,4] the repository test expects),
and Zip over [1,2,3,4] and [5,6,7] emits [1,5,2,6,3,7,4] including the
unpartnered trailing item. -/
theorem C2_zipby_drains_all_inputs (f : Int → Int → Int) (x : Int)
    (l : List Int) :
    zipBy (fun a b => a + b) [[1, 2, 3, 4], [(4 : Int), 4, 1]] = [5, 6, 4, 4]
      ∧ (zipBy (fun a b => a + b) [[1, 2, 3, 4], [(4 : Int), 4, 1]]).filter
          evensInt = [6, 4, 4]
      ∧ zipBy f [x :: l, []] ≠ []
      ∧ zipStreams [x :: l, ([] : List Int)] ≠ []
      ∧ zipStreams [[1, 2, 3, 4], [(5 : Int), 6, 7]] = [1, 5, 2, 6, 3, 7, 4] := by
  refine ⟨by decide, by decide, ?_, ?_, by decide⟩
  · have hstep : zipBy f [x :: l, []] = x :: zipByF f (l.length + 1) [l, []] := rfl
    rw [hstep]
    simp
  · have hstep : zipStreams [x :: l, ([] : List Int)]
        = x :: zipF (l.length + 1) [l, []] := rfl
    rw [hstep]
    simp

/-! ## Batch transformer

Modelled from the spec: the batch transformer is not under src (its test
is). A size-N batch accumulates arriving items into a pending batch, is
full when the pending count reaches N, commits (emits and resets) the
batch when full, and at end-of-data commits a non-empty pending remainder;
an empty pending batch is never committed. -/

/-- The batch worker loop: pending accumulator and remaining input. -/
def batchLoop {α : Type} (n : Nat) : List α → List α → List (List α)
  | acc, [] => if acc.isEmpty then [] else [acc]
  | acc, x :: xs =>
      if (acc ++ [x]).length = n then (acc ++ [x]) :: batchLoop n [] xs
      else batchLoop n (acc ++ [x]) xs

/-- The size-N batch stage over a whole input. -/
def batchTrans {α : Type} (n : Nat) (input : List α) : List (List α) :=
  batchLoop n [] input

theorem batchLoop_sizes {α : Type} (n : Nat) (hn : 1 ≤ n) :
    ∀ (xs acc : List α), acc.length < n →
      (∀ b ∈ batchLoop n acc xs, 1 ≤ b.length ∧ b.length ≤ n)
        ∧ (∀ b ∈ (batchLoop n acc xs).dropLast, b.length = n) := by
  intro xs
  induction xs with
  | nil =>
      intro acc hacc
      by_cases hem : acc.isEmpty
      · constructor
        · intro b hb
          rw [batchLoop, if_pos hem] at hb
          cases hb
        · intro b hb
          rw [batchLoop, if_pos hem] at hb
          cases hb
      · constructor
        · intro b hb
          rw [batchLoop, if_neg hem] at hb
          rw [List.mem_singleton] at hb
          subst hb
          refine ⟨?_, Nat.le_of_lt hacc⟩
          have : b ≠ [] := by
            intro hnil
            subst hnil
            exact hem rfl
          have : 0 < b.length := List.length_pos.mpr this
          omega
        · intro b hb
          rw [batchLoop, if_neg hem] at hb
          simp at hb
  | cons x xs ih =>
      intro acc hacc
      by_cases hfull : (acc ++ [x]).length = n
      · have hrec := ih [] (by simpa using hn)
        constructor
        · intro b hb
          rw [batchLoop, if_pos hfull] at hb
          rw [List.mem_cons] at hb
          cases hb with
          | inl hb =>
              subst hb
              exact ⟨by omega, Nat.le_of_eq hfull⟩
          | inr hb => exact hrec.1 b hb
        · intro b hb
          rw [batchLoop, if_pos hfull] at hb
          cases hrecl : batchLoop n ([] : List α) xs with
          | nil =>
              rw [hrecl] at hb
              simp at hb
          | cons r rs =>
              rw [hrecl] at hb
              rw [List.dropLast_cons₂] at hb
              rw [List.mem_cons] at hb
              cases hb with
              | inl hb => subst hb; exact hfull
              | inr hb =>
                  refine hrec.2 b ?_
                  rw [hrecl]
                  exact hb
      · have hlt : (acc ++ [x]).length < n := by
          have : (acc ++ [x]).length = acc.length + 1 := by simp
          omega
        constructor
        · intro b hb
          rw [batchLoop, if_neg hfull] at hb
          exact (ih (acc ++ [x]) hlt).1 b hb
        · intro b hb
          rw [batchLoop, if_neg hfull] at hb
          exact (ih (acc ++ [x]) hlt).2 b hb

/-- claim C6: for every size-N batch stage (N at least 1) and every input,
each committed batch contains exactly N items except possibly the final
batch, which contains between 1 and N items; no zero-size batch is ever
emitted; concretely, a size-2 batch stage over [1,2,3] emits [[1,2],[3]]. -/
theorem C6_batch_sizes {α : Type} (n : Nat) (input : List α) (hn : 1 ≤ n) :
    (∀ b ∈ batchTrans n input, 1 ≤ b.length ∧ b.length ≤ n)
      ∧ (∀ b ∈ (batchTrans n input).dropLast, b.length = n)
      ∧ batchTrans 2 [1, 2, 3] = [[1, 2], [(3 : Int)]] :=
  ⟨(batchLoop_sizes n hn input [] (by simpa using hn)).1,
   (batchLoop_sizes n hn input [] (by simpa using hn)).2,
   by decide⟩

/-- Witness for C6 at the test input: the size-2 stage over [1,2,3]. -/
theorem C6_batch_sizes_witness :
    batchTrans 2 [1, 2, 3] = [[1, 2], [(3 : Int)]] :=
  (C6_batch_sizes 2 [1, 2, 3] (by decide)).2.2

/-! ## Transform worker loop

Modelled from the spec: the generic transform worker loop is not under src
(the README in src shows its filter instance). Each iteration first checks
the Closed/Failure signals of the attached context without blocking and
returns when either is set; otherwise it reads the input, returning at
end-of-data, and applies the stage function to the item, emitting the
produced items. The output stream is closed by a deferred close that runs
on every return path of the worker. -/

/-- The per-iteration loop of a transform worker. -/
def workerLoop {α : Type} (ctx : EmitCtx) (step : α → List α) :
    List α → List α
  | [] => []
  | x :: xs =>
      if ctx.closedSig || ctx.failureSig then []
      else step x ++ workerLoop ctx step xs

/-- Observable outcome of a transform stage: the emitted items and whether
the output stream was closed. -/
structure StageRun (α : Type) where
  emitted : List α
  outputClosed : Bool
deriving Repr, DecidableEq

/-- A full stage run: the worker loop, then the deferred close of the
output stream (which runs whenever the worker returns). -/
def runStage {α : Type} (ctx : EmitCtx) (step : α → List α)
    (input : List α) : StageRun α :=
  StageRun.mk (workerLoop ctx step input) true

/-- The stage function of a filter stage. -/
def filterStep {α : Type} (p : α → Bool) (x : α) : List α :=
  if p x then [x] else []

/-- claim C7: a transform stage started on a context that is already closed
or failed observes the termination on its first iteration, emits nothing,
and still closes its output stream, so a downstream reader terminates
instead of blocking; concretely, a filter stage for even numbers over input
[1,2] on an already-closed context emits no items and still closes its
output. -/
theorem C7_dead_context_stage {α : Type} (ctx : EmitCtx) (step : α → List α)
    (input : List α) (h : ctx.closedSig = true ∨ ctx.failureSig = true) :
    (runStage ctx step input).emitted = []
      ∧ (runStage ctx step input).outputClosed = true
      ∧ runStage (EmitCtx.mk true false) (filterStep evensInt) [1, 2]
          = StageRun.mk ([] : List Int) true := by
  have hcond : (ctx.closedSig || ctx.failureSig) = true := by
    cases h with
    | inl h => rw [h]; rfl
    | inr h => rw [h]; simp
  refine ⟨?_, rfl, by decide⟩
  show workerLoop ctx step input = []
  cases input with
  | nil => rfl
  | cons x xs => simp [workerLoop, hcond]

/-- Witness for C7: the filter test configuration, a closed context. -/
theorem C7_dead_context_stage_witness :
    (runStage (EmitCtx.mk true false) (filterStep evensInt) [1, 2]).emitted
        = ([] : List Int) :=
  (C7_dead_context_stage (EmitCtx.mk true false) (filterStep evensInt) [1, 2]
    (Or.inl rfl)).1

/-! ## Unordered interleave (FIFO) combiner

Modelled from the spec: the FIFO combiner is not under src (its test is).
One worker per input forwards items to the shared output as they arrive; a
completion counter tracks ended inputs and the output closes only once
every input has ended. Items across inputs may interleave arbitrarily while
the order within one input is preserved, so the possible outputs over two
inputs are exactly the interleavings of the two input sequences. -/

/-- The possible outputs of the FIFO combiner over two inputs: every
schedule of the two forwarding workers. -/
inductive Interleave {α : Type} : List α → List α → List α → Prop
  | nil : Interleave [] [] []
  | left {x : α} {xs ys zs : List α} :
      Interleave xs ys zs → Interleave (x :: xs) ys (x :: zs)
  | right {y : α} {xs ys zs : List α} :
      Interleave xs ys zs → Interleave xs (y :: ys) (y :: zs)

/-- claim C8: for every pair of inputs to the FIFO combiner, every possible
combined output preserves the relative order of items originating from the
same input (each input is a sublist of the output) and contains every item
of every input exactly once (the output closes only after both inputs have
ended); moreover the combined output observed by the repository test over
inputs [1,2] and [3,4], namely [1,2,3,4], is one such schedule, and it
keeps 1 before 2 and 3 before 4 while covering exactly the items
{1,2,3,4}. -/
theorem C8_fifo_interleave {α : Type} (in1 in2 out : List α)
    (h : Interleave in1 in2 out) :
    (in1.Sublist out ∧ in2.Sublist out ∧ out.Perm (in1 ++ in2)
        ∧ out.length = in1.length + in2.length)
      ∧ Interleave [1, 2] [3, 4] [(1 : Int), 2, 3, 4] := by
  constructor
  · induction h with
    | nil => exact ⟨List.Sublist.refl [], List.Sublist.refl [], List.Perm.refl [], rfl⟩
    | left h ih =>
        refine ⟨List.Sublist.cons₂ _ ih.1, List.Sublist.cons _ ih.2.1, ?_, ?_⟩
        · exact List.Perm.cons _ ih.2.2.1
        · have := ih.2.2.2
          simp only [List.length_cons, List.length_append] at this ⊢
          omega
    | right h ih =>
        refine ⟨List.Sublist.cons _ ih.1, List.Sublist.cons₂ _ ih.2.1, ?_, ?_⟩
        · exact List.Perm.trans (List.Perm.cons _ ih.2.2.1) List.perm_middle.symm
        · have := ih.2.2.2
          simp only [List.length_cons, List.length_append] at this ⊢
          omega
  · exact Interleave.left (Interleave.left (Interleave.right
      (Interleave.right Interleave.nil)))

/-- Witness for C8 at the test inputs [1,2] and [3,4] with the observed
output [1,2,3,4]. -/
theorem C8_fifo_interleave_witness :
    [(1 : Int), 2].Sublist [1, 2, 3, 4] ∧ [(3 : Int), 4].Sublist [1, 2, 3, 4]
      ∧ ([(1 : Int), 2, 3, 4] : List Int).Perm ([1, 2] ++ [3, 4]) :=
  ⟨((C8_fifo_interleave [1, 2] [3, 4] [1, 2, 3, 4]
      (Interleave.left (Interleave.left (Interleave.right
        (Interleave.right Interleave.nil))))).1).1,
   ((C8_fifo_interleave [1, 2] [3, 4] [1, 2, 3, 4]
      (Interleave.left (Interleave.left (Interleave.right
        (Interleave.right Interleave.nil))))).1).2.1,
   ((C8_fifo_interleave [1, 2] [3, 4] [1, 2, 3, 4]
      (Interleave.left (Interleave.left (Interleave.right
        (Interleave.right Interleave.nil))))).1).2.2.1⟩

/-- Witness for C10: a run failing mid-loop and mid-barrier still closes
the second of two outputs exactly once, and a run with no matching item
consumes no acknowledgement. -/
theorem C10_dispatch_closes_once_witness :
    (dispatch evensInt 2 [1, 2, 3, 4, 5]
        (DispatchEnv.mk (some 3) true 1)).events.count (DEvent.closeOut 1) = 1
      ∧ (dispatch evensInt 1 [1, 3, 5] cleanEnv).acks = 0 :=
  ⟨(C10_dispatch_closes_once evensInt 2 [1, 2, 3, 4, 5]
      (DispatchEnv.mk (some 3) true 1)).1 1 (by decide),
   (C10_dispatch_closes_once evensInt 1 [1, 3, 5] cleanEnv).2 (by decide)⟩
